import Mathlib

/-!
Verification of the jExam notebook parser (`jexam/parser.py`, `jexam/utils.py`)
against its natural-language specification.

The embedding models notebook cells as their type tag, their source (either a
single string or a list of line strings, as in the Python code), the structured
mapping obtained by running the cell body through the YAML loader (the YAML
library is external to the repository, so its result on the body is carried as
data on the cell), and captured outputs.  Strings are modelled as `List Char`;
Python string operations (`split`, `strip`, `startswith`, `endswith`,
`str.lower`) are defined below.  Fallible code paths (`assert`, `IndexError`)
are modelled with `Except String` / `Option`.
-/

/-- Characters of a string literal, the `List Char` view used throughout. -/
def chars (s : String) : List Char := s.data

/-- Python whitespace: the characters stripped by `str.strip()` and matched by
the regex class `\s` (space, tab, newline, carriage return, vertical tab,
form feed). -/
def isPySpace (c : Char) : Bool :=
  c = ' ' || c = '\t' || c = '\n' || c = '\r' || c = '\x0b' || c = '\x0c'

/-- Python `str.strip()`: drop leading and trailing whitespace. -/
def pyStrip (l : List Char) : List Char :=
  ((l.dropWhile isPySpace).reverse.dropWhile isPySpace).reverse

/-- Python `s.split("\n")`.  Always returns at least one piece
(`"".split("\n") == [""]`). -/
def splitNl : List Char → List (List Char)
  | [] => [[]]
  | c :: cs =>
    if c = '\n' then [] :: splitNl cs
    else
      match splitNl cs with
      | [] => [[c]]
      | l :: ls => (c :: l) :: ls

/-- Python `"\n".join(lines)`. -/
def joinNl : List (List Char) → List Char
  | [] => []
  | [l] => l
  | l :: l' :: ls => l ++ '\n' :: joinNl (l' :: ls)

/-- Python `str.lower()` on a line (ASCII is all that the parser's markers
use). -/
def pyLower (l : List Char) : List Char := l.map Char.toLower

/-- A YAML scalar as used by the parser's delimiter configs (`points`,
`manual`, `seed`, ...). -/
inductive YamlVal
  | int (n : Int)
  | bool (b : Bool)
  | str (s : List Char)
deriving DecidableEq, Repr

/-- The mapping returned by `yaml.full_load` on a delimiter cell body
(`None` is normalised to the empty mapping by `get_delim_config`). -/
def ConfigMap := List (String × YamlVal)
deriving DecidableEq, Repr

/-- Python `dict.get(key, default)`. -/
def configGetD (m : ConfigMap) (k : String) (d : YamlVal) : YamlVal :=
  match (show List (String × YamlVal) from m).lookup k with
  | some v => v
  | none => d

/-- A Python value that is either a string or a list of strings (nbformat cell
sources and output fields take both shapes). -/
inductive PyText
  | str (s : List Char)
  | list (ls : List (List Char))
deriving DecidableEq, Repr

/-- Python `''.join(x)` on a string-or-list value (joining a string yields the
string itself). -/
def joinText : PyText → List Char
  | .str s => s
  | .list ls => ls.flatten

/-- The cell type tag of an nbformat cell. -/
inductive CellType
  | code
  | markdown
  | raw
deriving DecidableEq, Repr

/-- One captured output of a code cell: the optional `text` field and the
optional `data["text/plain"]` field, each a string or list of strings. -/
structure CellOutput where
  text : Option PyText
  dataTextPlain : Option PyText
deriving DecidableEq, Repr

/-- A notebook cell: type tag, source, the YAML-parsed mapping of its body
(lines after the first; `None` normalised to `{}` — carried as data because
the YAML parser is an external library), and captured outputs. -/
structure Cell where
  cell_type : CellType
  source : PyText
  yaml : ConfigMap
  outputs : List CellOutput
deriving DecidableEq, Repr

/-- `get_source(cell)`: a string source is split at newlines; a list source has
each line stripped of surrounding whitespace. -/
def get_source (cell : Cell) : List (List Char) :=
  match cell.source with
  | .str s => splitNl s
  | .list ls => ls.map pyStrip

/-- The raw source text of a cell (the input/output identity compared by the
round-trip property): the string itself, or the concatenation of the list
entries. -/
def cellContent (cell : Cell) : List Char :=
  match cell.source with
  | .str s => s
  | .list ls => ls.flatten

/-- First source line of a cell (`get_source(cell)[0]`; total variant, the
parser guards the empty-list `IndexError` case separately). -/
def first_line (cell : Cell) : List Char := (get_source cell).headD []

/-- `re.match(r"\s*<LIT>...", line, re.IGNORECASE)` for a literal delimiter
pattern: after leading whitespace the lowercased line starts with the
lowercased literal (the patterns have no `$` anchor, so trailing text is
allowed). -/
def delimMatch (lit : List Char) (line : List Char) : Bool :=
  lit.isPrefixOf (pyLower (line.dropWhile isPySpace))

def begin_exam_lit : List Char := chars "begin exam"
def begin_introduction_lit : List Char := chars "begin introduction"
def begin_question_lit : List Char := chars "begin question"
def begin_version_lit : List Char := chars "begin version"
def begin_conclusion_lit : List Char := chars "begin conclusion"
def end_introduction_lit : List Char := chars "end introduction"
def end_question_lit : List Char := chars "end question"
def end_version_lit : List Char := chars "end version"
def end_conclusion_lit : List Char := chars "end conclusion"

/-- `is_delim_cell(cell, delim, begin)`: a raw cell whose first line matches
the registered pattern (here passed as its literal). -/
def is_delim_cell (cell : Cell) (lit : List Char) : Bool :=
  cell.cell_type = CellType.raw && delimMatch lit (first_line cell)

/-- `get_delim_config(cell)`: the YAML mapping of the cell body. -/
def get_delim_config (cell : Cell) : ConfigMap := cell.yaml


/-- Python `sub in s` (substring test). -/
def hasSubstr (p : List Char) : List Char → Bool
  | [] => p.isEmpty
  | c :: cs => p.isPrefixOf (c :: cs) || hasSubstr p cs

/-- The optional `(hidden\s*)?` group of `TEST_REGEX`: if `hidden` is present
it is consumed together with the following whitespace (the branch without the
group would need `test` at the same position, which cannot also start with
`hidden`, so committing is faithful to the regex's backtracking). -/
def afterOptHidden (s : List Char) : List Char :=
  if (chars "hidden").isPrefixOf s then (s.drop 6).dropWhile isPySpace else s

/-- `re.match(TEST_REGEX, line, re.IGNORECASE)` where
`TEST_REGEX = (##\s*(hidden\s*)?test\s*##|#\s*(hidden\s*)?test)`. -/
def matchTestHeader (line : List Char) : Bool :=
  let low := pyLower line
  (if (chars "##").isPrefixOf low then
    let s := afterOptHidden ((low.drop 2).dropWhile isPySpace)
    (chars "test").isPrefixOf s && (chars "##").isPrefixOf ((s.drop 4).dropWhile isPySpace)
  else false)
  ||
  (if (chars "#").isPrefixOf low then
    (chars "test").isPrefixOf (afterOptHidden ((low.drop 1).dropWhile isPySpace))
  else false)

/-- `is_test_cell(cell)`: a code cell with a (truthy) non-empty source whose
first line matches `TEST_REGEX`. -/
def is_test_cell (cell : Cell) : Bool :=
  cell.cell_type = CellType.code && !(get_source cell).isEmpty
    && matchTestHeader (first_line cell)

/-- The `Test` named tuple. -/
structure Test where
  input : List Char
  output : List Char
  hidden : Bool
deriving DecidableEq, Repr

/-- The loop body of `read_test` over one captured output: append
`''.join(o.get('text', ''))`, then the `data['text/plain']` contribution —
the FIRST element when that value is a (truthy) list, the whole string when a
(truthy) string, nothing otherwise. -/
def readTestOutputStep (acc : List Char) (o : CellOutput) : List Char :=
  let acc := acc ++ joinText (o.text.getD (.str []))
  match o.dataTextPlain with
  | some (.list (x :: _)) => acc ++ x
  | some (.str s) => acc ++ s
  | _ => acc

/-- `read_test(cell)`: `hidden` iff the first line contains `hidden`
(case-insensitive), `input` the remaining lines joined with newlines, `output`
accumulated from the captured outputs.  `none` models the `IndexError` on an
empty source list. -/
def read_test (cell : Cell) : Option Test :=
  match get_source cell with
  | [] => none
  | first :: rest =>
    some { input := joinNl rest
           output := cell.outputs.foldl readTestOutputStep []
           hidden := hasSubstr (chars "hidden") (pyLower first) }

/-- `re.match(MD_SOLUTION_REGEX, line, re.IGNORECASE)` where
`MD_SOLUTION_REGEX = (<strong>|\*{2})solution:?(<\/strong>|\*{2})`:
what follows `solution` must be an optional colon and then a closing tag. -/
def mdSolutionClose (s : List Char) : Bool :=
  (match s with
   | ':' :: t => (chars "</strong>").isPrefixOf t || (chars "**").isPrefixOf t
   | _ => false)
  || (chars "</strong>").isPrefixOf s || (chars "**").isPrefixOf s

def mdSolutionLine (line : List Char) : Bool :=
  let low := pyLower line
  (if (chars "<strong>").isPrefixOf low then
    (chars "solution").isPrefixOf (low.drop 8) && mdSolutionClose (low.drop 16)
  else false)
  ||
  (if (chars "**").isPrefixOf low then
    (chars "solution").isPrefixOf (low.drop 2) && mdSolutionClose (low.drop 10)
  else false)

/-- `is_markdown_solution_cell(cell)`. -/
def is_markdown_solution_cell (cell : Cell) : Bool :=
  cell.cell_type = CellType.markdown && (get_source cell).any mdSolutionLine

/-- The character class `[a-zA-Z0-9_ ]` of `solution_assignment_re`. -/
def isAssignNameChar (c : Char) : Bool :=
  ('a' ≤ c && c ≤ 'z') || ('A' ≤ c && c ≤ 'Z') || ('0' ≤ c && c ≤ '9')
    || c = '_' || c = ' '

/-- Does the tail of a line contain the regex suffix `" #[ ]?SOLUTION"`
(somewhere — the pattern is unanchored on the right via `(.*)`)? -/
def hasInlineSolutionMark (s : List Char) : Bool :=
  hasSubstr (chars " #SOLUTION") s || hasSubstr (chars " # SOLUTION") s

/-- `solution_assignment_re.match(line)` for
`(\s*[a-zA-Z0-9_ ]*=)(.*) #[ ]?SOLUTION`, returning group 1.  The class run
cannot cross `=`, so the only candidate for the group-1 boundary is the first
character after the maximal `\s*`-then-class run, which must be `=`; the rest
of the line must then contain the solution mark. -/
def solutionAssignmentMatch (line : List Char) : Option (List Char) :=
  let w := line.takeWhile isPySpace
  let afterW := line.dropWhile isPySpace
  let name := afterW.takeWhile isAssignNameChar
  match afterW.dropWhile isAssignNameChar with
  | '=' :: tail =>
    if hasInlineSolutionMark tail then some (w ++ name ++ ['=']) else none
  | _ => none

/-- `solution_line_re.match(line)` for `(\s*)([^#\n]+) #[ ]?SOLUTION`,
returning group 1.  Neither group may contain `#`, so the marker's `#` sits
exactly at the first `#` of the line, position `j`; the literal space before
it forces a space at `j - 1` with a non-empty group 2 before that, so the
group-1/group-2 split `v` satisfies `v ≤ j - 2`.  Backtracking lets `\s*`
shrink below the maximal whitespace run `w` (handing spaces, tabs or newlines
over to `[^#\n]+`, which accepts everything except `#` and newline), and the
greedy engine reports the LARGEST feasible split, `min w (j - 2)`; the match
fails only if a newline would thereby be forced into group 2.  After the `#`
an optional single space and `SOLUTION` must follow. -/
def solutionLineMatch (line : List Char) : Option (List Char) :=
  let w := (line.takeWhile isPySpace).length
  let pre := line.takeWhile (fun c => !(c = '#'))
  match line.dropWhile (fun c => !(c = '#')) with
  | '#' :: tail =>
    if 2 ≤ pre.length && pre.getLast? = some ' '
        && ((chars " SOLUTION").isPrefixOf tail || (chars "SOLUTION").isPrefixOf tail)
        && !((pre.dropLast.drop (min w (pre.length - 2))).any (fun c => c = '\n')) then
      some (line.take (min w (pre.length - 2)))
    else none
  | _ => none

/-- `begin_solution_re.match(line)` for `(\s*)# BEGIN SOLUTION( NO PROMPT)?`:
group 1 is the indentation, the Bool is whether group 2 (` NO PROMPT`)
matched. -/
def beginSolutionMatch (line : List Char) : Option (List Char × Bool) :=
  let w := line.takeWhile isPySpace
  let rest := line.dropWhile isPySpace
  if (chars "# BEGIN SOLUTION").isPrefixOf rest then
    some (w, (chars " NO PROMPT").isPrefixOf (rest.drop 16))
  else none

def skip_suffixes : List (List Char) :=
  [chars "# SOLUTION NO PROMPT", chars "# BEGIN PROMPT", chars "# END PROMPT"]

def end_solution_suffix : List Char := chars "# END SOLUTION"

/-- `SUBSTITUTIONS` applied in order to one line (each regex is matched
against the possibly already-substituted line). -/
def applySubstitutions (line : List Char) : List Char :=
  let line :=
    match solutionAssignmentMatch line with
    | some g1 => g1 ++ chars " ..."
    | none => line
  match solutionLineMatch line with
  | some w => w ++ chars "..."
  | none => line

/-- The loop of `replace_solutions`: `solution` is the in-solution-block flag,
`stripped` the accumulator.  `AssertionError`s become `Except.error`. -/
def replaceSolutionsGo (solution : Bool) (stripped : List (List Char)) :
    List (List Char) → Except String (List (List Char))
  | [] =>
    if solution then .error "BEGIN SOLUTION without END SOLUTION"
    else .ok stripped
  | line :: rest =>
    if skip_suffixes.any (fun s => s.isSuffixOf line) then
      replaceSolutionsGo solution stripped rest
    else if solution && !(end_solution_suffix.isSuffixOf line) then
      replaceSolutionsGo solution stripped rest
    else if end_solution_suffix.isSuffixOf line then
      if solution then replaceSolutionsGo false stripped rest
      else .error "END SOLUTION without BEGIN SOLUTION"
    else
      match beginSolutionMatch line with
      | some (w, noPrompt) =>
        if solution then .error "Nested BEGIN SOLUTION"
        else if noPrompt then replaceSolutionsGo true stripped rest
        else replaceSolutionsGo true (stripped ++ [applySubstitutions (w ++ chars "...")]) rest
      | none =>
        replaceSolutionsGo solution (stripped ++ [applySubstitutions line]) rest

/-- `replace_solutions(lines)`. -/
def replace_solutions (lines : List (List Char)) : Except String (List (List Char)) :=
  replaceSolutionsGo false [] lines

/-- `MARKDOWN_ANSWER_CELL_TEMPLATE`. -/
def markdownAnswerCell : Cell :=
  { cell_type := CellType.markdown
    source := .str (chars "_Type your answer here, replacing this text._")
    yaml := []
    outputs := [] }

/-- `replace_cell_solutions(cell)`: markdown solution cells are replaced
wholesale; code cells have their source run through `replace_solutions` and
re-joined; anything else is returned as a (deep) copy. -/
def replace_cell_solutions (cell : Cell) : Except String Cell :=
  if is_markdown_solution_cell cell then .ok markdownAnswerCell
  else if cell.cell_type = CellType.code then
    match replace_solutions (get_source cell) with
    | .error e => .error e
    | .ok stripped => .ok { cell with source := .str (joinNl stripped) }
  else .ok cell

/-- `str_to_doctest(code_lines, lines)` from `jexam/utils.py`: recursively
prefix each line with `"... "` (continuation) or `">>> "` (prompt). -/
def str_to_doctest (codeLines : List (List Char)) (lines : List (List Char)) :
    List (List Char) :=
  match codeLines with
  | [] => lines
  | line :: rest =>
    if [' '].isPrefixOf line || ['\t'].isPrefixOf line then
      str_to_doctest rest (lines ++ [chars "... " ++ line])
    else if (chars "except:").isPrefixOf line || (chars "elif ").isPrefixOf line
        || (chars "else:").isPrefixOf line || (chars "finally:").isPrefixOf line then
      str_to_doctest rest (lines ++ [chars "... " ++ line])
    else if 0 < lines.length && ['\\'].isSuffixOf (pyStrip (lines.getLastD [])) then
      str_to_doctest rest (lines ++ [chars "... " ++ line])
    else
      str_to_doctest rest (lines ++ [chars ">>> " ++ line])

/-- Whether a line is a continuation line per the code's three tests, given
the previous OUTPUT line if any (the third test strips the previous output
line before the backslash check). -/
def doctestCont (line : List Char) (prev : Option (List Char)) : Bool :=
  [' '].isPrefixOf line || ['\t'].isPrefixOf line
  || (chars "except:").isPrefixOf line || (chars "elif ").isPrefixOf line
  || (chars "else:").isPrefixOf line || (chars "finally:").isPrefixOf line
  || (match prev with
      | some p => ['\\'].isSuffixOf (pyStrip p)
      | none => false)

/-- Direct one-pass form of the doctest conversion: each output line is the
input line with a single prefix chosen from the previous output line. -/
def doctestSpec : List (List Char) → Option (List Char) → List (List Char)
  | [], _ => []
  | line :: rest, prev =>
    let out := (if doctestCont line prev then chars "... " else chars ">>> ") ++ line
    out :: doctestSpec rest (some out)

/-- The continuation condition exactly as the claim words it: the line starts
with whitespace, or starts with one of the keywords, or the previous output
line ends with a backslash (no stripping). -/
def doctestContClaim (line : List Char) (prev : Option (List Char)) : Bool :=
  (match line with
   | c :: _ => isPySpace c
   | [] => false)
  || (chars "except:").isPrefixOf line || (chars "elif ").isPrefixOf line
  || (chars "else:").isPrefixOf line || (chars "finally:").isPrefixOf line
  || (match prev with
      | some p => ['\\'].isSuffixOf p
      | none => false)

/-- The claim's transliteration of the doctest conversion. -/
def doctestClaimSpec : List (List Char) → Option (List Char) → List (List Char)
  | [], _ => []
  | line :: rest, prev =>
    let out := (if doctestContClaim line prev then chars "... " else chars ">>> ") ++ line
    out :: doctestClaimSpec rest (some out)

/-- One OK test case as written into a test artifact by `gen_case`. -/
structure OkCase where
  code : List Char
  hidden : Bool
  locked : Bool
deriving DecidableEq, Repr

/-- One OK test suite (`gen_suite`). -/
structure OkSuite where
  cases : List OkCase
  scored : Bool
  setup : List Char
  teardown : List Char
  kind : List Char
deriving DecidableEq, Repr

/-- One OK test artifact as written by `write_test` (name, points, suites). -/
structure OkTestFile where
  name : List Char
  points : YamlVal
  suites : List OkSuite
deriving DecidableEq, Repr

/-- The inner loop of `remove_hidden_tests`: popping every hidden case while
walking the index list backwards removes exactly the hidden cases and keeps
the rest in order. -/
def removeHiddenCases : List OkCase → List OkCase
  | [] => []
  | c :: cs => if c.hidden then removeHiddenCases cs else c :: removeHiddenCases cs

/-- `remove_hidden_tests` acting on one artifact: the filesystem round trip
(`exec` on the written file, then `write_test`) is modelled as the identity on
the artifact's structured value. -/
def remove_hidden_tests (t : OkTestFile) : OkTestFile :=
  { t with suites := t.suites.map (fun s => { s with cases := removeHiddenCases s.cases }) }

/-- A `Version` as constructed by the parser (its lazily parsed fields are
derived later and irrelevant to parsing). -/
structure Version where
  original_cells : List Cell
deriving DecidableEq, Repr

/-- A `Question`: `Question.__init__` stores the version list (always a list at
the parser's call site), the `points` and `manual` config values, and
initialises `unused_versions` to the full index range. -/
structure Question where
  versions : List Version
  points : YamlVal
  manual : YamlVal
  unused_versions : List Nat
deriving DecidableEq, Repr

def Question.make (versions : List Version) (points manual : YamlVal) : Question :=
  { versions := versions, points := points, manual := manual
    unused_versions := List.range versions.length }

/-- `Question.choose_version()`: refill `unused_versions` when empty, draw an
element of it (the draw site `np.random.choice` is modelled by an oracle `r`
selecting a position in the list — any element is reachable), remove the drawn
index by value (`list.remove`), and return the version at that index.  `none`
models the `ValueError`/`IndexError` paths (empty choice list / index out of
range), which are unreachable from parser-built states. -/
def choose_version (q : Question) (r : Nat) : Option (Version × Question) :=
  let unused :=
    if q.unused_versions.isEmpty then List.range q.versions.length
    else q.unused_versions
  if unused.isEmpty then none
  else
    let idx := unused.getD (r % unused.length) 0
    match q.versions.get? idx with
    | none => none
    | some v => some (v, { q with unused_versions := unused.erase idx })

/-- A sequence of consecutive `choose_version` draws against the same Question
object (its per-object state threads through — this is exactly what happens
across the exam instances generated in one run, which share `Exam.questions`). -/
def drawSeq (q : Question) : List Nat → Option (List Version × Question)
  | [] => some ([], q)
  | r :: rs =>
    match choose_version q r with
    | none => none
    | some (v, q') =>
      match drawSeq q' rs with
      | none => none
      | some (vs, q'') => some (v :: vs, q'')

/-- The class-level state of `Exam` (a process-wide singleton in the code;
threaded explicitly here so that carry-over between parses is visible). -/
structure ExamSt where
  config : ConfigMap
  questions : List Question
  introduction : List Cell
  conclusion : List Cell
  autograder_format : List Char
deriving DecidableEq, Repr

/-- The `Exam` class attributes' initial values. -/
def defaultExam : ExamSt :=
  { config := [], questions := [], introduction := [], conclusion := []
    autograder_format := chars "otter" }

/-- The full state of one `parse_notebook` run: the `Exam` singleton plus the
function-local flags and accumulators. -/
structure ParseSt where
  exam : ExamSt
  in_introduction : Bool
  in_question : Bool
  in_version : Bool
  in_conclusion : Bool
  cells : List Cell
  qconfig : ConfigMap
  questions : List Question
  versions : List Version
deriving DecidableEq, Repr

def initParse (exam : ExamSt) : ParseSt :=
  { exam := exam, in_introduction := false, in_question := false
    in_version := false, in_conclusion := false
    cells := [], qconfig := [], questions := [], versions := [] }

/-- The (misindented) `Exam.questions = questions` assignment at the end of
every loop iteration of `parse_notebook`. -/
def publishQuestions (s : ParseSt) : Except String ParseSt :=
  .ok { s with exam := { s.exam with questions := s.questions } }

/-- One iteration of the `parse_notebook` loop on cell `c` (the `elif` chain
in source order).  A raw cell whose list source is empty raises `IndexError`
inside the first `is_delim_cell` call; `AssertionError`s become
`Except.error`. -/
def parseStep (s : ParseSt) (c : Cell) : Except String ParseSt :=
  if c.cell_type = CellType.raw ∧ get_source c = [] then
    .error "IndexError: list index out of range"
  else if is_delim_cell c begin_exam_lit then
    publishQuestions { s with exam := { s.exam with config := get_delim_config c } }
  else if is_delim_cell c begin_introduction_lit then
    if s.in_introduction || s.in_question || s.in_version || s.in_conclusion then
      .error "BEGIN INTRODUCTION detected inside another block"
    else publishQuestions { s with in_introduction := true }
  else if is_delim_cell c begin_question_lit then
    if s.in_introduction || s.in_question || s.in_version || s.in_conclusion then
      .error "BEGIN QUESTION detected inside another block"
    else publishQuestions { s with in_question := true, qconfig := get_delim_config c }
  else if is_delim_cell c begin_version_lit then
    if s.in_introduction || !s.in_question || s.in_version || s.in_conclusion then
      .error "BEGIN VERSION detected inside an incompatible block or outside a question block"
    else publishQuestions { s with in_version := true }
  else if is_delim_cell c begin_conclusion_lit then
    if s.in_introduction || s.in_question || s.in_version || s.in_conclusion then
      .error "BEGIN CONCLUSION detected inside another block"
    else publishQuestions { s with in_conclusion := true }
  else if s.in_introduction && is_delim_cell c end_introduction_lit then
    publishQuestions { s with in_introduction := false
                              exam := { s.exam with introduction := s.cells }
                              cells := [] }
  else if s.in_question && is_delim_cell c end_question_lit then
    let versions :=
      if s.versions = [] ∧ s.cells ≠ [] then [Version.mk s.cells] else s.versions
    publishQuestions
      { s with in_question := false
               questions := s.questions ++
                 [Question.make versions (configGetD s.qconfig "points" (.int 1))
                    (configGetD s.qconfig "manual" (.bool false))]
               versions := [], qconfig := [], cells := [] }
  else if s.in_version && is_delim_cell c end_version_lit then
    publishQuestions { s with in_version := false
                              versions := s.versions ++ [Version.mk s.cells]
                              cells := [] }
  else if s.in_conclusion && is_delim_cell c end_conclusion_lit then
    publishQuestions { s with in_conclusion := false
                              exam := { s.exam with conclusion := s.cells }
                              cells := [] }
  else if is_delim_cell c end_introduction_lit then
    .error "END INTRODUCTION found outside introduction block"
  else if is_delim_cell c end_question_lit then
    .error "END QUESTION found outside question block"
  else if is_delim_cell c end_version_lit then
    .error "END VERSION found outside version block"
  else if is_delim_cell c end_conclusion_lit then
    .error "END CONCLUSION found outside conclusion block"
  else if s.in_introduction || s.in_question || s.in_version || s.in_conclusion then
    publishQuestions { s with cells := s.cells ++ [c] }
  else
    .error "Cell found outside a block"

/-- The `parse_notebook` loop over the cell sequence. -/
def parseSteps (s : ParseSt) : List Cell → Except String ParseSt
  | [] => .ok s
  | c :: cs =>
    match parseStep s c with
    | .error e => .error e
    | .ok s' => parseSteps s' cs

/-- `parse_notebook(nb)` from the given prior `Exam` state: on success, the
resulting `Exam` state. -/
def parse_notebook (exam : ExamSt) (nbCells : List Cell) : Except String ExamSt :=
  match parseSteps (initParse exam) nbCells with
  | .error e => .error e
  | .ok s => .ok s.exam

/-- The seed selection in `main`:
`seed = args.seed or Exam.config.get("seed", 42)` — Python `or` falls through
on a falsy left operand, i.e. on `None` and on `0`. -/
def computeSeed (argsSeed : Option Int) (config : ConfigMap) : YamlVal :=
  match argsSeed with
  | some s => if s ≠ 0 then .int s else configGetD config "seed" (.int 42)
  | none => configGetD config "seed" (.int 42)

/-- Amended-claim reading of the test output: per captured output, the `text`
contents followed by only the FIRST element of a list-valued
`data['text/plain']` (or the whole string when it is a string). -/
def outputPieceKept (o : CellOutput) : List Char :=
  joinText (o.text.getD (.str [])) ++
    (match o.dataTextPlain with
     | some (.list (x :: _)) => x
     | some (.str s) => s
     | _ => [])

/-- The amended claim's output: concatenation of the kept pieces in output
order. -/
def readTestOutputKept (outs : List CellOutput) : List Char :=
  (outs.map outputPieceKept).flatten

/-- The original claim's reading: EVERY textual/plain-text representation is
kept — the whole `text` contents and the whole `text/plain` value (all list
elements). -/
def outputPieceAll (o : CellOutput) : List Char :=
  joinText (o.text.getD (.str [])) ++
    (match o.dataTextPlain with
     | some t => joinText t
     | none => [])

/-- The original claim's output: concatenation of everything attached. -/
def readTestOutputAll (outs : List CellOutput) : List Char :=
  (outs.map outputPieceAll).flatten

/-- A line is free of every solution/prompt marker recognised by
`replace_solutions`: it ends in no skip suffix, is no `END SOLUTION` line,
no `BEGIN SOLUTION` line, and matches neither inline-solution regex. -/
def markerFreeLine (line : List Char) : Bool :=
  !(skip_suffixes.any (fun s => s.isSuffixOf line))
    && !(end_solution_suffix.isSuffixOf line)
    && (beginSolutionMatch line).isNone
    && (solutionAssignmentMatch line).isNone
    && (solutionLineMatch line).isNone


/-! ### Concrete inputs used by witnesses and counterexamples -/

/-- The concrete C4 counterexample cell: a code cell in the list-of-lines
source form whose single line is indented and carries no solution marker. -/
def c4Cell : Cell :=
  { cell_type := CellType.code, source := .list [chars "  x = 1"]
    yaml := [], outputs := [] }

/-- The concrete C5 cell: a test cell with one captured output whose
`text/plain` data is the two-element list `["a", "b"]`. -/
def c5Cell : Cell :=
  { cell_type := CellType.code, source := .str (chars "# TEST\nassert x == 1")
    yaml := []
    outputs := [{ text := none, dataTextPlain := some (.list [chars "a", chars "b"]) }] }

/-- The two distinguishable versions used in the C2 witness and
counterexample. -/
def c2vA : Version :=
  Version.mk [{ cell_type := CellType.code, source := .str (chars "a = 1")
                yaml := [], outputs := [] }]

def c2vB : Version :=
  Version.mk [{ cell_type := CellType.code, source := .str (chars "b = 2")
                yaml := [], outputs := [] }]

/-- A freshly constructed two-version Question. -/
def c2Question : Question := Question.make [c2vA, c2vB] (.int 1) (.bool false)

/-- A raw `BEGIN QUESTION` delimiter cell with an empty config body. -/
def beginQuestionCell : Cell :=
  { cell_type := CellType.raw, source := .str (chars "BEGIN QUESTION")
    yaml := [], outputs := [] }

/-- A raw `END QUESTION` delimiter cell. -/
def endQuestionCell : Cell :=
  { cell_type := CellType.raw, source := .str (chars "END QUESTION")
    yaml := [], outputs := [] }

/-- A prior `Exam` state with non-default config and introduction, as left by
an earlier parse in the same process. -/
def c10Exam : ExamSt :=
  { config := [("seed", YamlVal.int 7)], questions := []
    introduction := [markdownAnswerCell], conclusion := []
    autograder_format := chars "otter" }

/-- The `Exam` state after parsing a bare question block from `c10Exam`. -/
def c10Exam' : ExamSt :=
  { c10Exam with questions :=
      [{ versions := [], points := YamlVal.int 1, manual := YamlVal.bool false
         unused_versions := [] }] }

/-! ## Helper lemmas -/

theorem splitNl_ne_nil (s : List Char) : splitNl s ≠ [] := by
  cases s with
  | nil => simp [splitNl]
  | cons c cs =>
    simp only [splitNl]
    split
    · simp
    · cases h : splitNl cs <;> simp

theorem joinNl_splitNl (s : List Char) : joinNl (splitNl s) = s := by
  induction s with
  | nil => rfl
  | cons c cs ih =>
    simp only [splitNl]
    by_cases hc : c = '\n'
    · subst hc
      simp only [if_pos rfl]
      rcases h : splitNl cs with _ | ⟨l, ls⟩
      · exact absurd h (splitNl_ne_nil cs)
      · rw [h] at ih
        simp only [joinNl]
        simpa using ih
    · rw [if_neg hc]
      rcases h : splitNl cs with _ | ⟨l, ls⟩
      · exact absurd h (splitNl_ne_nil cs)
      · rw [h] at ih
        cases ls with
        | nil => simpa [joinNl] using ih
        | cons l' ls' => simpa [joinNl] using ih

theorem applySubstitutions_of_markerFree (line : List Char)
    (h : markerFreeLine line = true) : applySubstitutions line = line := by
  simp only [markerFreeLine, Bool.and_eq_true, Option.isNone_iff_eq_none] at h
  simp [applySubstitutions, h.1.2, h.2]

theorem replaceSolutionsGo_markerFree (lines : List (List Char))
    (h : ∀ l ∈ lines, markerFreeLine l = true) :
    ∀ acc, replaceSolutionsGo false acc lines = .ok (acc ++ lines) := by
  induction lines with
  | nil => intro acc; simp [replaceSolutionsGo]
  | cons l rest ih =>
    intro acc
    have hl := h l (by simp)
    have hrest : ∀ l ∈ rest, markerFreeLine l = true := fun x hx => h x (by simp [hx])
    simp only [markerFreeLine, Bool.and_eq_true, Bool.not_eq_true',
      Option.isNone_iff_eq_none] at hl
    obtain ⟨⟨⟨⟨hskip, hend⟩, hbegin⟩, _⟩, _⟩ := hl
    simp only [replaceSolutionsGo, hskip, hend, hbegin, Bool.false_eq_true, if_false,
      Bool.false_and]
    rw [applySubstitutions_of_markerFree l (h l (by simp))]
    rw [ih hrest (acc ++ [l])]
    simp

theorem replace_solutions_markerFree (lines : List (List Char))
    (h : ∀ l ∈ lines, markerFreeLine l = true) :
    replace_solutions lines = .ok lines := by
  simpa using replaceSolutionsGo_markerFree lines h []

/-! ## C4 — solution stripping on marker-free cells -/

/-- C4 theorem (amended): for every cell whose source is a single string, which
is not a markdown solution cell and none of whose source lines carries an
inline-solution, BEGIN/END SOLUTION, or prompt-scaffolding marker,
`replace_cell_solutions` returns the cell unchanged (content identical). -/
theorem replace_cell_solutions_of_markerFree (cell : Cell) (s : List Char)
    (hs : cell.source = .str s)
    (hmd : is_markdown_solution_cell cell = false)
    (hmf : ∀ l ∈ get_source cell, markerFreeLine l = true) :
    replace_cell_solutions cell = .ok cell := by
  simp only [replace_cell_solutions, hmd, Bool.false_eq_true, if_false]
  by_cases hc : cell.cell_type = CellType.code
  · rw [if_pos hc]
    have hsrc : get_source cell = splitNl s := by simp [get_source, hs]
    rw [hsrc] at hmf ⊢
    rw [replace_solutions_markerFree _ hmf]
    simp only [joinNl_splitNl, ← hs]
  · rw [if_neg hc]

/-- C4 witness: a concrete marker-free string-source code cell passes through
`replace_cell_solutions` unchanged. -/
theorem replace_cell_solutions_of_markerFree_witness :
    replace_cell_solutions
      { cell_type := CellType.code, source := .str (chars "def f(x):\n    return x")
        yaml := [], outputs := [] } =
    .ok { cell_type := CellType.code, source := .str (chars "def f(x):\n    return x")
          yaml := [], outputs := [] } :=
  replace_cell_solutions_of_markerFree _ _ rfl (by decide) (by decide)

/-- C4 counterexample: `c4Cell` contains no solution markers, yet
`replace_cell_solutions` returns a cell whose content `"x = 1"` differs from
the input content `"  x = 1"` (the list-form branch of `get_source` strips
each line). -/
theorem replace_cell_solutions_strips_list_source :
    is_markdown_solution_cell c4Cell = false ∧
    (∀ l ∈ get_source c4Cell, markerFreeLine l = true) ∧
    replace_cell_solutions c4Cell = .ok { c4Cell with source := .str (chars "x = 1") } ∧
    cellContent { c4Cell with source := .str (chars "x = 1") } ≠ cellContent c4Cell :=
  ⟨by decide, by decide, rfl, by decide⟩

/-! ## C8 — the inline assignment solution scenario -/

/-- C8: the code line `x = 5 # SOLUTION` strips to `x = ...` — at the line
level through `replace_solutions` and at the cell level through
`replace_cell_solutions`. -/
theorem inline_solution_assignment_strips :
    replace_solutions [chars "x = 5 # SOLUTION"] = .ok [chars "x = ..."] ∧
    replace_cell_solutions
      { cell_type := CellType.code, source := .str (chars "x = 5 # SOLUTION")
        yaml := [], outputs := [] } =
    .ok { cell_type := CellType.code, source := .str (chars "x = ...")
          yaml := [], outputs := [] } :=
  ⟨rfl, rfl⟩

/-! ## C6 — idempotence of hidden-test removal -/

theorem removeHiddenCases_idem (cs : List OkCase) :
    removeHiddenCases (removeHiddenCases cs) = removeHiddenCases cs := by
  induction cs with
  | nil => rfl
  | cons c cs ih =>
    by_cases h : c.hidden
    · simp [removeHiddenCases, h, ih]
    · simp [removeHiddenCases, h, ih]

/-- C6: removing hidden cases from a test artifact is idempotent — a second
application removes nothing and returns the artifact unchanged. -/
theorem remove_hidden_tests_idem (t : OkTestFile) :
    remove_hidden_tests (remove_hidden_tests t) = remove_hidden_tests t := by
  simp only [remove_hidden_tests, List.map_map]
  congr 1
  induction t.suites with
  | nil => rfl
  | cons s ss ih => simp [Function.comp, removeHiddenCases_idem, ih]

/-! ## C3 — seed precedence -/

/-- C3 counterexample: an explicitly provided seed of 0 does NOT take priority
— `args.seed or Exam.config.get("seed", 42)` falls through on the falsy 0, so
the config value 7 wins. -/
theorem computeSeed_zero_falls_through :
    computeSeed (some 0) [("seed", YamlVal.int 7)] = YamlVal.int 7 ∧
    YamlVal.int 7 ≠ YamlVal.int 0 :=
  ⟨rfl, by decide⟩

/-- C3 theorem (amended): the seed precedence is — a truthy (non-zero)
explicit seed wins; an absent (`None`) or zero explicit seed falls back to the
config's `seed` value, else the default 42. -/
theorem computeSeed_precedence (s : Int) (config : ConfigMap) :
    (s ≠ 0 → computeSeed (some s) config = .int s) ∧
    computeSeed none config = configGetD config "seed" (.int 42) ∧
    computeSeed (some 0) config = configGetD config "seed" (.int 42) := by
  refine ⟨fun h => ?_, rfl, rfl⟩
  simp [computeSeed, h]

/-- C3 witness: the precedence theorem evaluated at seed 5 against a config
with seed 7. -/
theorem computeSeed_precedence_witness :
    computeSeed (some 5) [("seed", YamlVal.int 7)] = YamlVal.int 5 ∧
    computeSeed none [("seed", YamlVal.int 7)] = YamlVal.int 7 :=
  ⟨(computeSeed_precedence 5 [("seed", YamlVal.int 7)]).1 (by decide),
   ((computeSeed_precedence 5 [("seed", YamlVal.int 7)]).2.1).trans (by decide)⟩

/-! ## C5 — read_test output assembly -/

theorem readTestOutputStep_eq (acc : List Char) (o : CellOutput) :
    readTestOutputStep acc o = acc ++ outputPieceKept o := by
  unfold readTestOutputStep outputPieceKept
  cases h : o.dataTextPlain with
  | none => simp
  | some t =>
    cases t with
    | str s => simp
    | list ls => cases ls <;> simp

theorem readTestOutput_foldl (outs : List CellOutput) :
    ∀ acc, outs.foldl readTestOutputStep acc = acc ++ readTestOutputKept outs := by
  induction outs with
  | nil => intro acc; simp [readTestOutputKept]
  | cons o os ih =>
    intro acc
    simp only [List.foldl_cons, readTestOutputStep_eq, ih, readTestOutputKept,
      List.map_cons, List.flatten_cons, List.append_assoc]

/-- C5 theorem (amended): the `output` field of a parsed test is the
concatenation, in output order, of each captured output's `text` contents
followed by only the FIRST element of a list-valued `text/plain`
representation (elements past the first are dropped) or the whole value when
it is a string. -/
theorem read_test_output_eq (cell : Cell) (t : Test) (h : read_test cell = some t) :
    t.output = readTestOutputKept cell.outputs := by
  unfold read_test at h
  cases hs : get_source cell with
  | nil => rw [hs] at h; exact absurd h (by simp)
  | cons first rest =>
    rw [hs] at h
    simp only [Option.some.injEq] at h
    rw [← h]
    simpa using readTestOutput_foldl cell.outputs []

/-- C5 counterexample: `read_test` keeps only `"a"` from the list-valued
`text/plain` of `c5Cell`, while the concatenation of everything attached is
`"ab"` — so an attached representation IS omitted. -/
theorem read_test_drops_list_tail :
    is_test_cell c5Cell = true ∧
    read_test c5Cell =
      some { input := chars "assert x == 1", output := chars "a", hidden := false } ∧
    (chars "a") ≠ readTestOutputAll c5Cell.outputs :=
  ⟨by decide, rfl, by decide⟩

/-- C5 witness: the amended output equation evaluated on `c5Cell`. -/
theorem read_test_output_eq_witness :
    ({ input := chars "assert x == 1", output := chars "a", hidden := false } : Test).output
      = readTestOutputKept c5Cell.outputs :=
  read_test_output_eq c5Cell _ rfl

/-! ## C9 — doctest conversion -/

theorem doctestSpec_length (cl : List (List Char)) :
    ∀ prev, (doctestSpec cl prev).length = cl.length := by
  induction cl with
  | nil => intro prev; rfl
  | cons line rest ih => intro prev; simp [doctestSpec, ih]

theorem str_to_doctest_eq_spec (cl : List (List Char)) :
    ∀ acc, str_to_doctest cl acc = acc ++ doctestSpec cl acc.getLast? := by
  induction cl with
  | nil => intro acc; simp [str_to_doctest, doctestSpec]
  | cons line rest ih =>
    intro acc
    have hback : (match acc.getLast? with
        | some p => ['\\'].isSuffixOf (pyStrip p)
        | none => false) =
        (decide (0 < acc.length) && ['\\'].isSuffixOf (pyStrip (acc.getLastD []))) := by
      rcases acc.eq_nil_or_concat with rfl | ⟨as, a, rfl⟩
      · simp
      · simp [List.getLast?_concat, List.getLastD_concat]
    simp only [str_to_doctest, doctestSpec, doctestCont, hback]
    by_cases h1 : ([' '].isPrefixOf line || ['\t'].isPrefixOf line) = true
    · rw [if_pos h1, ih]
      rw [Bool.or_eq_true] at h1
      rcases h1 with h | h <;>
        simp [h, List.getLast?_concat, List.append_assoc]
    · rw [if_neg h1]
      simp only [Bool.or_eq_true, not_or, Bool.not_eq_true] at h1
      obtain ⟨ha, hb⟩ := h1
      by_cases h2 : ((chars "except:").isPrefixOf line || (chars "elif ").isPrefixOf line
          || (chars "else:").isPrefixOf line || (chars "finally:").isPrefixOf line) = true
      · rw [if_pos h2, ih]
        simp only [Bool.or_eq_true] at h2
        rcases h2 with ((h | h) | h) | h <;>
          simp [h, ha, hb, List.getLast?_concat, List.append_assoc]
      · rw [if_neg h2]
        simp only [Bool.or_eq_true, not_or, Bool.not_eq_true] at h2
        obtain ⟨⟨⟨h2a, h2b⟩, h2c⟩, h2d⟩ := h2
        by_cases h3 : (decide (0 < acc.length)
            && ['\\'].isSuffixOf (pyStrip (acc.getLastD []))) = true
        · rw [if_pos h3, ih]
          simp only [ha, hb, h2a, h2b, h2c, h2d, h3, Bool.false_or]
          simp [List.getLast?_concat, List.append_assoc]
        · rw [if_neg h3, ih]
          simp only [Bool.not_eq_true] at h3
          simp only [ha, hb, h2a, h2b, h2c, h2d, h3, Bool.false_or]
          simp [List.getLast?_concat, List.append_assoc]

/-- C9 theorem (amended): `str_to_doctest(code_lines, [])` returns the list of
the same length in which the i-th element is the i-th input line prefixed with
exactly one of `"... "` or `">>> "`, the continuation prefix being chosen for
lines starting with a space or tab, lines starting with
`except:`/`elif `/`else:`/`finally:`, and lines whose predecessor in the
output ends with a backslash after stripping surrounding whitespace
(`doctestSpec` / `doctestCont` state exactly that rule). -/
theorem str_to_doctest_characterized (codeLines : List (List Char)) :
    str_to_doctest codeLines [] = doctestSpec codeLines none ∧
    (str_to_doctest codeLines []).length = codeLines.length := by
  have h : str_to_doctest codeLines [] = doctestSpec codeLines none := by
    simpa using str_to_doctest_eq_spec codeLines []
  exact ⟨h, by rw [h]; exact doctestSpec_length codeLines none⟩

/-- C9 counterexample: with input lines `["a \ ", "b"]` (the first line ends
in backslash-space) the code emits `"... b"` because the previous output line
is STRIPPED before the backslash test, while the claim's rule (previous output
line literally ends with a backslash) predicts `">>> b"`. -/
theorem str_to_doctest_strips_before_backslash_check :
    str_to_doctest [chars "a \\ ", chars "b"] [] = [chars ">>> a \\ ", chars "... b"] ∧
    doctestClaimSpec [chars "a \\ ", chars "b"] none = [chars ">>> a \\ ", chars ">>> b"] ∧
    str_to_doctest [chars "a \\ ", chars "b"] []
      ≠ doctestClaimSpec [chars "a \\ ", chars "b"] none :=
  ⟨rfl, rfl, by decide⟩

/-! ## C2 — version exhaustion -/

theorem getD_mem_of_lt {u : List Nat} {i : Nat} (h : i < u.length) : u.getD i 0 ∈ u := by
  induction u generalizing i with
  | nil => simp at h
  | cons a as ih =>
    cases i with
    | zero => simp
    | succ n =>
      simp only [List.getD_cons_succ]
      exact List.mem_cons_of_mem _ (ih (by simpa using h))

theorem get?_eq_some_getD (l : List Version) (n : Nat) (d : Version) (h : n < l.length) :
    l.get? n = some (l.getD n d) := by
  induction l generalizing n with
  | nil => simp at h
  | cons a as ih =>
    cases n with
    | zero => rfl
    | succ m =>
      simp only [List.get?_cons_succ, List.getD_cons_succ]
      exact ih m (by simpa using h)

theorem choose_version_step (q : Question) (r : Nat)
    (hne : q.unused_versions.isEmpty = false)
    (hlt : q.unused_versions.getD (r % q.unused_versions.length) 0 < q.versions.length) :
    choose_version q r =
      some (q.versions.getD (q.unused_versions.getD (r % q.unused_versions.length) 0) (Version.mk []), { q with unused_versions := q.unused_versions.erase (q.unused_versions.getD (r % q.unused_versions.length) 0) }) := by
  have hget := get?_eq_some_getD q.versions _ (Version.mk []) hlt
  simp only [choose_version, hne, Bool.false_eq_true, if_false, hget]

theorem drawSeq_perm_aux (rs : List Nat) :
    ∀ (q : Question), q.unused_versions.Nodup →
      (∀ i ∈ q.unused_versions, i < q.versions.length) →
      rs.length = q.unused_versions.length →
      ∃ vs q', drawSeq q rs = some (vs, q') ∧
        vs.Perm (q.unused_versions.map (fun i => q.versions.getD i (Version.mk []))) ∧
        q'.versions = q.versions := by
  induction rs with
  | nil =>
    intro q _ _ hlen
    have hu : q.unused_versions = [] := List.length_eq_zero.mp hlen.symm
    exact ⟨[], q, rfl, by simp [hu], rfl⟩
  | cons r rs ih =>
    intro q hnd hbd hlen
    have hpos : 0 < q.unused_versions.length := by
      rw [← hlen]; simp
    have hne : q.unused_versions.isEmpty = false := by
      cases h : q.unused_versions with
      | nil => rw [h] at hpos; simp at hpos
      | cons a as => rfl
    have hmem : q.unused_versions.getD (r % q.unused_versions.length) 0 ∈ q.unused_versions :=
      getD_mem_of_lt (Nat.mod_lt _ hpos)
    have hlt : q.unused_versions.getD (r % q.unused_versions.length) 0 < q.versions.length :=
      hbd _ hmem
    have hstep := choose_version_step q r hne hlt
    set j := q.unused_versions.getD (r % q.unused_versions.length) 0 with hj
    obtain ⟨vs, q'', hdraw, hperm, hver⟩ :=
      ih { q with unused_versions := q.unused_versions.erase j }
        (hnd.erase _)
        (fun i hi => hbd i (List.mem_of_mem_erase hi))
        (by
          show rs.length = (q.unused_versions.erase j).length
          rw [List.length_erase_of_mem hmem]
          simp only [List.length_cons] at hlen
          omega)
    refine ⟨q.versions.getD j (Version.mk []) :: vs, q'', ?_, ?_, hver⟩
    · simp only [drawSeq, hstep, hdraw]
    · have h1 := hperm.cons (q.versions.getD j (Version.mk []))
      refine h1.trans ?_
      have h2 := (List.perm_cons_erase hmem).map (fun i => q.versions.getD i (Version.mk []))
      exact h2.symm

theorem map_getD_range (l : List Version) :
    (List.range l.length).map (fun i => l.getD i (Version.mk [])) = l := by
  induction l with
  | nil => rfl
  | cons a as ih =>
    rw [List.length_cons, List.range_succ_eq_map]
    simp only [List.map_cons, List.getD_cons_zero, List.map_map]
    have : ((fun i => (a :: as).getD i (Version.mk [])) ∘ Nat.succ) =
        (fun i => as.getD i (Version.mk [])) := by
      funext i
      simp [Function.comp]
    rw [this, ih]

theorem drawSeq_append (q : Question) (rs₁ rs₂ : List Nat) :
    drawSeq q (rs₁ ++ rs₂) =
      match drawSeq q rs₁ with
      | none => none
      | some (vs₁, q₁) =>
        match drawSeq q₁ rs₂ with
        | none => none
        | some (vs₂, q₂) => some (vs₁ ++ vs₂, q₂) := by
  induction rs₁ generalizing q with
  | nil =>
    simp only [List.nil_append, drawSeq]
    cases h : drawSeq q rs₂ with
    | none => rfl
    | some p => rfl
  | cons r rs ih =>
    simp only [List.cons_append, drawSeq, List.append_eq]
    cases hc : choose_version q r with
    | none => rfl
    | some p =>
      obtain ⟨v, q'⟩ := p
      dsimp only
      rw [ih q']
      cases h1 : drawSeq q' rs with
      | none => rfl
      | some p1 =>
        obtain ⟨vs1, q1⟩ := p1
        cases h2 : drawSeq q1 rs₂ with
        | none => simp [h2]
        | some p2 =>
          obtain ⟨vs2, q2⟩ := p2
          simp [h2]

/-- C2 theorem (amended): for a Question with `k` versions, `k` consecutive
calls to `choose_version` starting from a state in which `unused_versions`
holds the full index range (as in a freshly constructed Question, and again
after every refill) all succeed and return a permutation of the `k` versions
with no repeats; and the repeat-avoidance state threads through concatenated
draw sequences (as across the exam instances generated in one run, which call
`choose_version` on the same Question objects). -/
theorem choose_version_exhaustion (q : Question) (rs : List Nat)
    (hfull : q.unused_versions = List.range q.versions.length)
    (hlen : rs.length = q.versions.length) :
    (∃ vs q', drawSeq q rs = some (vs, q') ∧ vs.Perm q.versions) ∧
    (∀ rs₁ rs₂ : List Nat, drawSeq q (rs₁ ++ rs₂) =
      match drawSeq q rs₁ with
      | none => none
      | some (vs₁, q₁) =>
        match drawSeq q₁ rs₂ with
        | none => none
        | some (vs₂, q₂) => some (vs₁ ++ vs₂, q₂)) := by
  constructor
  · obtain ⟨vs, q', hdraw, hperm, _⟩ :=
      drawSeq_perm_aux rs q
        (by rw [hfull]; exact List.nodup_range _)
        (by rw [hfull]; intro i hi; exact List.mem_range.mp hi)
        (by rw [hfull, List.length_range, hlen])
    refine ⟨vs, q', hdraw, ?_⟩
    rw [hfull, map_getD_range] at hperm
    exact hperm
  · exact fun rs₁ rs₂ => drawSeq_append q rs₁ rs₂

/-- C2 witness: the exhaustion theorem evaluated on the concrete two-version
Question with draw oracle `[1, 0]`. -/
theorem choose_version_exhaustion_witness :
    ∃ vs q', drawSeq c2Question [1, 0] = some (vs, q') ∧ vs.Perm c2Question.versions :=
  (choose_version_exhaustion c2Question [1, 0] rfl rfl).1

/-- C2 counterexample: after one draw on the fresh two-version Question the
next TWO consecutive calls (`k = 2`) can both return version A — the window
`[A, A]` is not a permutation of the two versions, so "any k consecutive
calls" fails for windows not aligned with a refill. -/
theorem choose_version_repeats_in_window :
    choose_version c2Question 1 =
      some (c2vB, { c2Question with unused_versions := [0] }) ∧
    drawSeq { c2Question with unused_versions := [0] } [1, 0] =
      some ([c2vA, c2vA], { c2Question with unused_versions := [1] }) ∧
    ¬ ([c2vA, c2vA].Perm c2Question.versions) :=
  ⟨rfl, rfl, by decide⟩

/-! ## Parser lemmas (C1, C7, C10) -/

theorem isPrefixOf_total {l1 l2 s : List Char} (h1 : l1.isPrefixOf s = true)
    (h2 : l2.isPrefixOf s = true) :
    l1.isPrefixOf l2 = true ∨ l2.isPrefixOf l1 = true := by
  induction s generalizing l1 l2 with
  | nil =>
    cases l1 with
    | nil => left; simp [List.isPrefixOf]
    | cons a t => simp [List.isPrefixOf] at h1
  | cons a as ih =>
    cases l1 with
    | nil => left; simp [List.isPrefixOf]
    | cons c1 t1 =>
      cases l2 with
      | nil => right; simp [List.isPrefixOf]
      | cons c2 t2 =>
        simp only [List.isPrefixOf, Bool.and_eq_true, beq_iff_eq] at h1 h2
        obtain ⟨rfl, h1⟩ := h1
        obtain ⟨rfl, h2⟩ := h2
        rcases ih h1 h2 with h | h
        · left; simp [List.isPrefixOf, h]
        · right; simp [List.isPrefixOf, h]

/-- Two delimiter literals neither of which is a prefix of the other can never
match the same line. -/
theorem delimMatch_incompat {l1 l2 : List Char} (line : List Char)
    (hno : l1.isPrefixOf l2 = false ∧ l2.isPrefixOf l1 = false)
    (h1 : delimMatch l1 line = true) : delimMatch l2 line = false := by
  by_contra hc
  rw [Bool.not_eq_false] at hc
  unfold delimMatch at h1 hc
  rcases isPrefixOf_total h1 hc with h | h
  · rw [hno.1] at h; exact Bool.false_ne_true h
  · rw [hno.2] at h; exact Bool.false_ne_true h

theorem is_delim_cell_false_of_match (c : Cell) (lit : List Char)
    (h : delimMatch lit (first_line c) = false) : is_delim_cell c lit = false := by
  simp [is_delim_cell, h]

/-- An END QUESTION delimiter cell matches no other delimiter pattern. -/
theorem end_question_only (c : Cell) (hq : is_delim_cell c end_question_lit = true) :
    is_delim_cell c begin_exam_lit = false ∧
    is_delim_cell c begin_introduction_lit = false ∧
    is_delim_cell c begin_question_lit = false ∧
    is_delim_cell c begin_version_lit = false ∧
    is_delim_cell c begin_conclusion_lit = false ∧
    is_delim_cell c end_introduction_lit = false ∧
    is_delim_cell c end_version_lit = false ∧
    is_delim_cell c end_conclusion_lit = false := by
  have hm : delimMatch end_question_lit (first_line c) = true := by
    simp only [is_delim_cell, Bool.and_eq_true] at hq
    exact hq.2
  exact ⟨is_delim_cell_false_of_match _ _
      (@delimMatch_incompat end_question_lit begin_exam_lit (first_line c) (by decide) hm),
    is_delim_cell_false_of_match _ _
      (@delimMatch_incompat end_question_lit begin_introduction_lit (first_line c) (by decide) hm),
    is_delim_cell_false_of_match _ _
      (@delimMatch_incompat end_question_lit begin_question_lit (first_line c) (by decide) hm),
    is_delim_cell_false_of_match _ _
      (@delimMatch_incompat end_question_lit begin_version_lit (first_line c) (by decide) hm),
    is_delim_cell_false_of_match _ _
      (@delimMatch_incompat end_question_lit begin_conclusion_lit (first_line c) (by decide) hm),
    is_delim_cell_false_of_match _ _
      (@delimMatch_incompat end_question_lit end_introduction_lit (first_line c) (by decide) hm),
    is_delim_cell_false_of_match _ _
      (@delimMatch_incompat end_question_lit end_version_lit (first_line c) (by decide) hm),
    is_delim_cell_false_of_match _ _
      (@delimMatch_incompat end_question_lit end_conclusion_lit (first_line c) (by decide) hm)⟩

/-- A cell matching a non-empty delimiter literal has a non-empty source. -/
theorem is_delim_cell_source_ne_nil {c : Cell} {lit : List Char} (hlit : lit ≠ [])
    (h : is_delim_cell c lit = true) : ¬ get_source c = [] := by
  intro hnil
  simp only [is_delim_cell, Bool.and_eq_true] at h
  have hm := h.2
  rw [first_line, hnil] at hm
  cases lit with
  | nil => exact hlit rfl
  | cons a l => simp [delimMatch, pyLower, List.isPrefixOf] at hm

theorem parseStep_end_question_outside (s : ParseSt) (c : Cell)
    (hq : is_delim_cell c end_question_lit = true)
    (hnq : s.in_question = false) :
    parseStep s c = .error "END QUESTION found outside question block" := by
  obtain ⟨hbe, hbi, hbq, hbv, hbc, hei, hev, hec⟩ := end_question_only c hq
  have hsrc : ¬(c.cell_type = CellType.raw ∧ get_source c = []) := by
    rintro ⟨-, h2⟩
    exact is_delim_cell_source_ne_nil (by decide) hq h2
  unfold parseStep
  rw [if_neg hsrc,
    if_neg (show ¬(is_delim_cell c begin_exam_lit = true) by simp [hbe]),
    if_neg (show ¬(is_delim_cell c begin_introduction_lit = true) by simp [hbi]),
    if_neg (show ¬(is_delim_cell c begin_question_lit = true) by simp [hbq]),
    if_neg (show ¬(is_delim_cell c begin_version_lit = true) by simp [hbv]),
    if_neg (show ¬(is_delim_cell c begin_conclusion_lit = true) by simp [hbc]),
    if_neg (show ¬((s.in_introduction && is_delim_cell c end_introduction_lit) = true) by
      simp [hei]),
    if_neg (show ¬((s.in_question && is_delim_cell c end_question_lit) = true) by simp [hnq]),
    if_neg (show ¬((s.in_version && is_delim_cell c end_version_lit) = true) by simp [hev]),
    if_neg (show ¬((s.in_conclusion && is_delim_cell c end_conclusion_lit) = true) by
      simp [hec]),
    if_neg (show ¬(is_delim_cell c end_introduction_lit = true) by simp [hei]),
    if_pos (show is_delim_cell c end_question_lit = true from hq)]

theorem parseSteps_append (s : ParseSt) (l1 l2 : List Cell) :
    parseSteps s (l1 ++ l2) =
      match parseSteps s l1 with
      | .error e => .error e
      | .ok s' => parseSteps s' l2 := by
  induction l1 generalizing s with
  | nil => rfl
  | cons c cs ih =>
    simp only [List.cons_append, parseSteps]
    cases parseStep s c with
    | error e => rfl
    | ok s' => exact ih s'

/-- C7: an END QUESTION delimiter cell reached while the parser is not inside
an open question block makes the whole parse fail with the mismatched-
delimiter error (the `AssertionError` the spec names StructuralParseError);
nothing after it is processed and no `Exam` state is produced. -/
theorem end_question_outside_block_fails (exam : ExamSt) (pre : List Cell) (c : Cell)
    (post : List Cell) (st : ParseSt)
    (hpre : parseSteps (initParse exam) pre = .ok st)
    (hnq : st.in_question = false)
    (hq : is_delim_cell c end_question_lit = true) :
    parse_notebook exam (pre ++ c :: post) =
      .error "END QUESTION found outside question block" := by
  unfold parse_notebook
  rw [parseSteps_append, hpre]
  show (match parseSteps st (c :: post) with
    | .error e => (.error e : Except String ExamSt)
    | .ok s => .ok s.exam) = _
  simp only [parseSteps, parseStep_end_question_outside st c hq hnq]

/-- C7 witness: a master document consisting of a single END QUESTION cell
fails with the mismatched-delimiter error. -/
theorem end_question_outside_block_fails_witness :
    parse_notebook defaultExam ([] ++ endQuestionCell :: []) =
      .error "END QUESTION found outside question block" :=
  end_question_outside_block_fails defaultExam [] endQuestionCell [] (initParse defaultExam)
    rfl rfl (by decide)

/-- C1 theorem (amended): an END QUESTION cell reached inside a question block
with no collected versions and an empty cell buffer is ACCEPTED: `parseStep`
succeeds, appending a Question whose `versions` list is empty (and whose
`unused_versions` is empty) — there is no zero-version rejection anywhere. -/
theorem end_question_with_no_versions_accepted (s : ParseSt) (c : Cell)
    (hq : is_delim_cell c end_question_lit = true)
    (hin : s.in_question = true) (hv : s.versions = []) (hc : s.cells = []) :
    ∃ s' qq, parseStep s c = .ok s' ∧ qq.versions = [] ∧ qq.unused_versions = [] ∧
      s'.questions = s.questions ++ [qq] ∧ s'.exam.questions = s'.questions := by
  obtain ⟨hbe, hbi, hbq, hbv, hbc, hei, hev, hec⟩ := end_question_only c hq
  have hsrc : ¬(c.cell_type = CellType.raw ∧ get_source c = []) := by
    rintro ⟨-, h2⟩
    exact is_delim_cell_source_ne_nil (by decide) hq h2
  have hstep : parseStep s c = .ok
      { s with in_question := false,
               questions := s.questions ++ [Question.make []
                 (configGetD s.qconfig "points" (YamlVal.int 1))
                 (configGetD s.qconfig "manual" (YamlVal.bool false))],
               versions := [], qconfig := [], cells := [],
               exam := { s.exam with questions := s.questions ++ [Question.make []
                 (configGetD s.qconfig "points" (YamlVal.int 1))
                 (configGetD s.qconfig "manual" (YamlVal.bool false))] } } := by
    unfold parseStep
    rw [if_neg hsrc,
      if_neg (show ¬(is_delim_cell c begin_exam_lit = true) by simp [hbe]),
      if_neg (show ¬(is_delim_cell c begin_introduction_lit = true) by simp [hbi]),
      if_neg (show ¬(is_delim_cell c begin_question_lit = true) by simp [hbq]),
      if_neg (show ¬(is_delim_cell c begin_version_lit = true) by simp [hbv]),
      if_neg (show ¬(is_delim_cell c begin_conclusion_lit = true) by simp [hbc]),
      if_neg (show ¬((s.in_introduction && is_delim_cell c end_introduction_lit) = true) by
        simp [hei]),
      if_pos (show (s.in_question && is_delim_cell c end_question_lit) = true by
        simp [hin, hq])]
    simp [publishQuestions, hv, hc]
  exact ⟨_, _, hstep, rfl, rfl, rfl, rfl⟩

/-- C1 witness: the acceptance theorem evaluated at the parser state reached
right after a `BEGIN QUESTION` cell, on an `END QUESTION` cell. -/
theorem end_question_with_no_versions_accepted_witness :
    ∃ s' qq, parseStep { initParse defaultExam with in_question := true } endQuestionCell
        = .ok s' ∧
      qq.versions = [] ∧ qq.unused_versions = [] ∧
      s'.questions =
        ({ initParse defaultExam with in_question := true } : ParseSt).questions ++ [qq] ∧
      s'.exam.questions = s'.questions :=
  end_question_with_no_versions_accepted _ _ (by decide) rfl rfl rfl

/-- C1 counterexample: the two-cell master document `BEGIN QUESTION`,
`END QUESTION` parses WITHOUT any error, constructing a Question whose
versions list is empty — no ModelInvariantError-style rejection exists. -/
theorem empty_question_parses_without_error :
    parse_notebook defaultExam [beginQuestionCell, endQuestionCell] =
      .ok { defaultExam with questions := [{ versions := [], points := YamlVal.int 1, manual := YamlVal.bool false, unused_versions := [] }] } := rfl

theorem parseStep_frame (s : ParseSt) (c : Cell) (s' : ParseSt)
    (h : parseStep s c = .ok s') :
    (is_delim_cell c begin_exam_lit = false → s'.exam.config = s.exam.config) ∧
    (s.in_introduction = false → is_delim_cell c begin_introduction_lit = false →
      s'.in_introduction = false ∧ s'.exam.introduction = s.exam.introduction) ∧
    (s.in_conclusion = false → is_delim_cell c begin_conclusion_lit = false →
      s'.in_conclusion = false ∧ s'.exam.conclusion = s.exam.conclusion) := by
  unfold parseStep at h
  by_cases hg : (c.cell_type = CellType.raw ∧ get_source c = [])
  · rw [if_pos hg] at h; exact Except.noConfusion h
  rw [if_neg hg] at h
  by_cases hBE : is_delim_cell c begin_exam_lit = true
  · rw [if_pos hBE] at h
    simp only [publishQuestions, Except.ok.injEq] at h
    subst h
    exact ⟨fun hcfg => absurd hBE (by simp [hcfg]), fun hi _ => ⟨hi, rfl⟩,
      fun hco _ => ⟨hco, rfl⟩⟩
  rw [if_neg hBE] at h
  by_cases hBI : is_delim_cell c begin_introduction_lit = true
  · rw [if_pos hBI] at h
    by_cases hF : ((s.in_introduction || s.in_question || s.in_version || s.in_conclusion) = true)
    · rw [if_pos hF] at h; exact Except.noConfusion h
    rw [if_neg hF] at h
    simp only [publishQuestions, Except.ok.injEq] at h
    subst h
    exact ⟨fun _ => rfl, fun hi hbi => absurd hBI (by simp [hbi]), fun hco _ => ⟨hco, rfl⟩⟩
  rw [if_neg hBI] at h
  by_cases hBQ : is_delim_cell c begin_question_lit = true
  · rw [if_pos hBQ] at h
    by_cases hF : ((s.in_introduction || s.in_question || s.in_version || s.in_conclusion) = true)
    · rw [if_pos hF] at h; exact Except.noConfusion h
    rw [if_neg hF] at h
    simp only [publishQuestions, Except.ok.injEq] at h
    subst h
    exact ⟨fun _ => rfl, fun hi _ => ⟨hi, rfl⟩, fun hco _ => ⟨hco, rfl⟩⟩
  rw [if_neg hBQ] at h
  by_cases hBV : is_delim_cell c begin_version_lit = true
  · rw [if_pos hBV] at h
    by_cases hF : ((s.in_introduction || !s.in_question || s.in_version || s.in_conclusion) = true)
    · rw [if_pos hF] at h; exact Except.noConfusion h
    rw [if_neg hF] at h
    simp only [publishQuestions, Except.ok.injEq] at h
    subst h
    exact ⟨fun _ => rfl, fun hi _ => ⟨hi, rfl⟩, fun hco _ => ⟨hco, rfl⟩⟩
  rw [if_neg hBV] at h
  by_cases hBC : is_delim_cell c begin_conclusion_lit = true
  · rw [if_pos hBC] at h
    by_cases hF : ((s.in_introduction || s.in_question || s.in_version || s.in_conclusion) = true)
    · rw [if_pos hF] at h; exact Except.noConfusion h
    rw [if_neg hF] at h
    simp only [publishQuestions, Except.ok.injEq] at h
    subst h
    exact ⟨fun _ => rfl, fun hi _ => ⟨hi, rfl⟩, fun hco hbc => absurd hBC (by simp [hbc])⟩
  rw [if_neg hBC] at h
  by_cases hEI : ((s.in_introduction && is_delim_cell c end_introduction_lit) = true)
  · rw [if_pos hEI] at h
    simp only [publishQuestions, Except.ok.injEq] at h
    subst h
    exact ⟨fun _ => rfl, fun hi _ => absurd hEI (by simp [hi]), fun hco _ => ⟨hco, rfl⟩⟩
  rw [if_neg hEI] at h
  by_cases hEQ : ((s.in_question && is_delim_cell c end_question_lit) = true)
  · rw [if_pos hEQ] at h
    simp only [publishQuestions, Except.ok.injEq] at h
    subst h
    exact ⟨fun _ => rfl, fun hi _ => ⟨hi, rfl⟩, fun hco _ => ⟨hco, rfl⟩⟩
  rw [if_neg hEQ] at h
  by_cases hEV : ((s.in_version && is_delim_cell c end_version_lit) = true)
  · rw [if_pos hEV] at h
    simp only [publishQuestions, Except.ok.injEq] at h
    subst h
    exact ⟨fun _ => rfl, fun hi _ => ⟨hi, rfl⟩, fun hco _ => ⟨hco, rfl⟩⟩
  rw [if_neg hEV] at h
  by_cases hEC : ((s.in_conclusion && is_delim_cell c end_conclusion_lit) = true)
  · rw [if_pos hEC] at h
    simp only [publishQuestions, Except.ok.injEq] at h
    subst h
    exact ⟨fun _ => rfl, fun hi _ => ⟨hi, rfl⟩, fun hco _ => absurd hEC (by simp [hco])⟩
  rw [if_neg hEC] at h
  by_cases hXI : is_delim_cell c end_introduction_lit = true
  · rw [if_pos hXI] at h; exact Except.noConfusion h
  rw [if_neg hXI] at h
  by_cases hXQ : is_delim_cell c end_question_lit = true
  · rw [if_pos hXQ] at h; exact Except.noConfusion h
  rw [if_neg hXQ] at h
  by_cases hXV : is_delim_cell c end_version_lit = true
  · rw [if_pos hXV] at h; exact Except.noConfusion h
  rw [if_neg hXV] at h
  by_cases hXC : is_delim_cell c end_conclusion_lit = true
  · rw [if_pos hXC] at h; exact Except.noConfusion h
  rw [if_neg hXC] at h
  by_cases hAny : ((s.in_introduction || s.in_question || s.in_version || s.in_conclusion) = true)
  · rw [if_pos hAny] at h
    simp only [publishQuestions, Except.ok.injEq] at h
    subst h
    exact ⟨fun _ => rfl, fun hi _ => ⟨hi, rfl⟩, fun hco _ => ⟨hco, rfl⟩⟩
  rw [if_neg hAny] at h
  exact Except.noConfusion h

theorem parseSteps_frame (cells : List Cell) :
    ∀ s s', parseSteps s cells = .ok s' →
    ((∀ c ∈ cells, is_delim_cell c begin_exam_lit = false) →
      s'.exam.config = s.exam.config) ∧
    (s.in_introduction = false →
      (∀ c ∈ cells, is_delim_cell c begin_introduction_lit = false) →
      s'.in_introduction = false ∧ s'.exam.introduction = s.exam.introduction) ∧
    (s.in_conclusion = false →
      (∀ c ∈ cells, is_delim_cell c begin_conclusion_lit = false) →
      s'.in_conclusion = false ∧ s'.exam.conclusion = s.exam.conclusion) := by
  induction cells with
  | nil =>
    intro s s' h
    simp only [parseSteps, Except.ok.injEq] at h
    subst h
    exact ⟨fun _ => rfl, fun hi _ => ⟨hi, rfl⟩, fun hc _ => ⟨hc, rfl⟩⟩
  | cons c cs ih =>
    intro s s' h
    simp only [parseSteps] at h
    cases hstep : parseStep s c with
    | error e => rw [hstep] at h; exact Except.noConfusion h
    | ok s1 =>
      rw [hstep] at h
      obtain ⟨f1, f2, f3⟩ := parseStep_frame s c s1 hstep
      obtain ⟨g1, g2, g3⟩ := ih s1 s' h
      refine ⟨?_, ?_, ?_⟩
      · intro hall
        rw [g1 (fun x hx => hall x (List.mem_cons_of_mem _ hx))]
        exact f1 (hall c (List.mem_cons_self _ _))
      · intro hi hall
        obtain ⟨hi1, hintro1⟩ := f2 hi (hall c (List.mem_cons_self _ _))
        obtain ⟨hi2, hintro2⟩ := g2 hi1 (fun x hx => hall x (List.mem_cons_of_mem _ hx))
        exact ⟨hi2, hintro2.trans hintro1⟩
      · intro hc2 hall
        obtain ⟨hc1, hcon1⟩ := f3 hc2 (hall c (List.mem_cons_self _ _))
        obtain ⟨hc3, hcon2⟩ := g3 hc1 (fun x hx => hall x (List.mem_cons_of_mem _ hx))
        exact ⟨hc3, hcon2.trans hcon1⟩

/-- C10: `parse_notebook` assigns `Exam.config`, `Exam.introduction` and
`Exam.conclusion` only when the corresponding delimiter cells occur: on a
successful parse of a document with no BEGIN EXAM (resp. BEGIN INTRODUCTION,
BEGIN CONCLUSION) cell, the corresponding `Exam` attribute keeps the value it
held before the parse — so state carries over between successive parses
started from the previous parse's `Exam` state. -/
theorem parse_notebook_frame (exam : ExamSt) (nbCells : List Cell) (exam' : ExamSt)
    (h : parse_notebook exam nbCells = .ok exam') :
    ((∀ c ∈ nbCells, is_delim_cell c begin_exam_lit = false) →
      exam'.config = exam.config) ∧
    ((∀ c ∈ nbCells, is_delim_cell c begin_introduction_lit = false) →
      exam'.introduction = exam.introduction) ∧
    ((∀ c ∈ nbCells, is_delim_cell c begin_conclusion_lit = false) →
      exam'.conclusion = exam.conclusion) := by
  unfold parse_notebook at h
  cases hsteps : parseSteps (initParse exam) nbCells with
  | error e => rw [hsteps] at h; exact Except.noConfusion h
  | ok sEnd =>
    rw [hsteps] at h
    simp only [Except.ok.injEq] at h
    subst h
    obtain ⟨g1, g2, g3⟩ := parseSteps_frame nbCells (initParse exam) sEnd hsteps
    exact ⟨fun hall => g1 hall, fun hall => (g2 rfl hall).2, fun hall => (g3 rfl hall).2⟩

/-- C10 witness: parsing a bare question block from a previous `Exam` state
with non-default config and introduction leaves config, introduction and
conclusion untouched (while `Exam.questions` is replaced). -/
theorem parse_notebook_frame_witness :
    c10Exam'.config = c10Exam.config ∧ c10Exam'.introduction = c10Exam.introduction ∧
      c10Exam'.conclusion = c10Exam.conclusion :=
  ⟨(parse_notebook_frame c10Exam [beginQuestionCell, endQuestionCell] c10Exam' rfl).1
      (by decide),
   (parse_notebook_frame c10Exam [beginQuestionCell, endQuestionCell] c10Exam' rfl).2.1
      (by decide),
   (parse_notebook_frame c10Exam [beginQuestionCell, endQuestionCell] c10Exam' rfl).2.2
      (by decide)⟩
